import Mathlib

/-!
Verification of the Tool Resolution Engine of the `librenews/catalog`
repository: a shallow embedding in Lean 4 of the registry (ToolCache),
the discovery scanner (BlueskyScanner) and the intent resolver
(AIOrchestrator fallback path), together with theorems settling the
specification claims.

Modelling conventions:
* JavaScript strings are Lean `String`s; `toLowerCase` is modelled by
  `Char.toLower` (ASCII-faithful, which covers every string these
  components compare), `includes` by substring search with the JS
  convention that the empty string is contained in every string.
* JavaScript `Date` values are modelled as natural-number timestamps.
* Confidence scores are modelled in integer hundredths: every number
  literal these components combine (0.4, 0.2, 0.1, 0.05, 0.3, 0.7, 0.8,
  0.9, 1.0) is an exact multiple of 0.01, so 0.4 is the natural number
  40, the clamp at 1.0 is `min · 100`, and the acceptance threshold 0.3
  is 30.
* A function that can throw is modelled with `Except String`.
* The regexes of the source are modelled by dedicated backtracking
  matchers with JS semantics (leftmost match, ordered alternation,
  greedy `\s+` and `?`, lazy `+?`).
-/

namespace Catalog

/-- Characters matched by the JavaScript regex class `\s` (and trimmed by
`String.prototype.trim`). -/
def jsIsSpace (c : Char) : Bool :=
  c = ' ' || c = '\t' || c = '\n' || c = '\r' || c = '\x0b' || c = '\x0c' ||
  c = '\u00A0' || c = '\u1680' || ('\u2000' ≤ c && c ≤ '\u200A') || c = '\u2028' ||
  c = '\u2029' || c = '\u202F' || c = '\u205F' || c = '\u3000' || c = '\uFEFF'

/-- JavaScript `String.prototype.toLowerCase` (ASCII-faithful). -/
def jsToLower (s : String) : String := String.mk (s.data.map Char.toLower)

/-- JavaScript `String.prototype.split(' ')` on character lists: split at
every single space, keeping empty fields. -/
def splitSpace : List Char → List String
  | [] => [""]
  | c :: cs =>
    if c = ' ' then "" :: splitSpace cs
    else
      match splitSpace cs with
      | [] => [String.mk [c]]
      | w :: ws => String.mk (c :: w.data) :: ws

/-- JavaScript `String.prototype.split(' ')`. -/
def jsSplitSpace (s : String) : List String := splitSpace s.data

/-- JavaScript `String.prototype.trim`. -/
def jsTrimList (cs : List Char) : List Char :=
  ((cs.dropWhile jsIsSpace).reverse.dropWhile jsIsSpace).reverse

/-- JavaScript `String.prototype.trim` on strings. -/
def jsTrim (s : String) : String := String.mk (jsTrimList s.data)

/-- `leadsWith pat text` holds when `text` begins with `pat`. -/
def leadsWith : List Char → List Char → Bool
  | [], _ => true
  | _ :: _, [] => false
  | p :: ps, c :: cs => p == c && leadsWith ps cs

/-- Substring test on character lists; the empty pattern is found in every
text, mirroring JavaScript `String.prototype.includes`. -/
def hasSub : List Char → List Char → Bool
  | _, [] => true
  | [], _ :: _ => false
  | c :: t, sub => leadsWith sub (c :: t) || hasSub t sub

/-- JavaScript `String.prototype.includes`. -/
def strIncludes (s sub : String) : Bool := hasSub s.data sub.data

/-- JavaScript `String.prototype.startsWith`. -/
def strStartsWith (s p : String) : Bool := leadsWith p.data s.data

/-- The `CachedTool` record of `src/core/tool-cache.ts`.  The opaque
`inputSchema`/`outputSchema` blobs are modelled as optional strings. -/
structure CachedTool where
  id : String
  name : String
  description : String
  author : String
  repo : String
  lastSeen : Nat
  capabilities : List String
  version : String
  tags : List String
  homepage : Option String := none
  inputSchema : Option String := none
  outputSchema : Option String := none
deriving DecidableEq, Repr

/-- A JavaScript value passed where a string is expected: the `search`
entry point can be handed `undefined`, `null`, a string, or a non-string
value. -/
inductive JsValue where
  | undef
  | nullv
  | strv (s : String)
  | numv (n : Int)
deriving DecidableEq, Repr

/-- The `ToolSearchResult` record of `src/core/tool-cache.ts`. -/
structure ToolSearchResult where
  tools : List CachedTool
  total : Nat
  query : String
deriving DecidableEq, Repr

/-- The match test of `ToolCache.searchTools` (name, description, tags or
id contains the lowercased query). -/
def toolMatchesQuery (lowerQuery : String) (t : CachedTool) : Bool :=
  strIncludes (jsToLower t.name) lowerQuery ||
  strIncludes (jsToLower t.description) lowerQuery ||
  t.tags.any (fun tag => strIncludes (jsToLower tag) lowerQuery) ||
  strIncludes (jsToLower t.id) lowerQuery

/-- The relevance score used by the comparator of `ToolCache.searchTools`:
3 for an exact (lowercased) name match, plus 2 when the description
contains the query, plus 1 when some tag contains the query. -/
def searchScore (lowerQuery : String) (t : CachedTool) : Nat :=
  (if jsToLower t.name = lowerQuery then 3 else 0) +
  (if strIncludes (jsToLower t.description) lowerQuery then 2 else 0) +
  (if t.tags.any (fun tag => strIncludes (jsToLower tag) lowerQuery) then 1 else 0)

/-- Stable insertion step for a descending sort by `key`: the inserted
element (which occurs earlier in the original list) is placed before the
first element whose key is not larger. -/
def orderedInsertDesc (key : CachedTool → Nat) (a : CachedTool) :
    List CachedTool → List CachedTool
  | [] => [a]
  | b :: l => if key b ≤ key a then a :: b :: l else b :: orderedInsertDesc key a l

/-- Stable descending sort by `key`; this computes exactly the result of
the (stable) `Array.prototype.sort` call of `searchTools` with comparator
`(b.score - a.score)`. -/
def insertionSortDesc (key : CachedTool → Nat) : List CachedTool → List CachedTool
  | [] => []
  | a :: l => orderedInsertDesc key a (insertionSortDesc key l)

/-- The filtered match list of `ToolCache.searchTools`, in registry
encounter order. -/
def searchMatches (tools : List CachedTool) (lowerQuery : String) : List CachedTool :=
  tools.filter (toolMatchesQuery lowerQuery)

/-- The sorted match list of `ToolCache.searchTools` (before `slice`). -/
def searchRanked (tools : List CachedTool) (lowerQuery : String) : List CachedTool :=
  insertionSortDesc (searchScore lowerQuery) (searchMatches tools lowerQuery)

/-- `ToolCache.searchTools`.  The very first statement of the source is
`query.toLowerCase()`, which throws a `TypeError` when `query` is
`undefined`, `null` or not a string; this is modelled by `Except.error`. -/
def searchTools (tools : List CachedTool) (query : JsValue) (limit : Nat) :
    Except String ToolSearchResult :=
  match query with
  | .strv q =>
    let lowerQuery := jsToLower q
    Except.ok
      { tools := (searchRanked tools lowerQuery).take limit
        total := (searchMatches tools lowerQuery).length
        query := q }
  | _ => Except.error "TypeError: query.toLowerCase is not a function"

/-- The private state of `ToolCache`: the insertion-ordered `Map` of tools
(its keys are always the `id` fields of the stored records) and the last
scan time. -/
structure CacheState where
  tools : List CachedTool
  lastScan : Option Nat := none
deriving DecidableEq, Repr

/-- `Map.prototype.set` keyed by `id` on an insertion-ordered map: an
existing key keeps its position and gets the new value, a new key is
appended. -/
def mapSet : List CachedTool → CachedTool → List CachedTool
  | [], t => [t]
  | x :: xs, t => if x.id = t.id then t :: xs else x :: mapSet xs t

/-- `ToolCache.addTool` (the upsert): store the record under its id with
`lastSeen` stamped to the current time. -/
def addTool (s : CacheState) (t : CachedTool) (now : Nat) : CacheState :=
  { s with tools := mapSet s.tools { t with lastSeen := now } }

/-- `ToolCache.getTool`: `Map.prototype.get` by id. -/
def getTool (s : CacheState) (id : String) : Option CachedTool :=
  s.tools.find? (fun t => t.id == id)

/-- `ToolCache.updateLastScan`. -/
def updateLastScan (s : CacheState) (now : Nat) : CacheState :=
  { s with lastScan := some now }

/-- The snapshot produced by `ToolCache.export`. -/
structure CacheExport where
  tools : List CachedTool
  lastScan : Option Nat
deriving DecidableEq, Repr

/-- `ToolCache.export`: the values of the map in insertion order plus the
last scan time. -/
def cacheExport (s : CacheState) : CacheExport :=
  { tools := s.tools, lastScan := s.lastScan }

/-- `ToolCache.import`: clears the map, re-inserts every exported record
under its id, and restores the last scan time.  The previous state is
discarded entirely. -/
def cacheImport (_prev : CacheState) (data : CacheExport) : CacheState :=
  { tools := data.tools.foldl mapSet [], lastScan := data.lastScan }

/-! ## Regex machinery

Backtracking matchers with JavaScript semantics for the concrete regexes
appearing in `ai-orchestrator.ts` and `bluesky-scanner.ts`. -/

/-- The JS regex `.` (any character except a line terminator). -/
def jsDot (c : Char) : Bool :=
  !(c = '\n' || c = '\r' || c = '\u2028' || c = '\u2029')

/-- A character of the regex class `[a-zA-Z0-9_-]`. -/
def isWordChar (c : Char) : Bool :=
  ('a' ≤ c && c ≤ 'z') || ('A' ≤ c && c ≤ 'Z') || ('0' ≤ c && c ≤ '9') ||
  c = '_' || c = '-'

/-- Case-insensitive literal match (the `/i` flag); returns the rest of
the text on success. -/
def matchLitCI : List Char → List Char → Option (List Char)
  | [], cs => some cs
  | _ :: _, [] => none
  | p :: ps, c :: cs => if c.toLower = p.toLower then matchLitCI ps cs else none

/-- Case-sensitive literal match; returns the rest of the text. -/
def matchLitCS : List Char → List Char → Option (List Char)
  | [], cs => some cs
  | _ :: _, [] => none
  | p :: ps, c :: cs => if c = p then matchLitCS ps cs else none

/-- Greedy `\s+` followed by the continuation `k`, with backtracking: the
longest whitespace run is tried first, then ever shorter non-empty runs. -/
def wsGreedy (k : List Char → Option (List Char)) : List Char → Option (List Char)
  | [] => none
  | c :: cs =>
    if jsIsSpace c then
      match wsGreedy k cs with
      | some r => some r
      | none => k cs
    else none

/-- `\s+lit` as a Boolean test (a tail alternative such as `\s+with`,
after which the regex imposes nothing on the remaining text). -/
def wsThenLit (lit : List Char) : List Char → Bool
  | [] => false
  | c :: cs => jsIsSpace c && ((matchLitCI lit cs).isSome || wsThenLit lit cs)

/-- The closing alternation `(?:\s+w₁|\s+w₂|…|$)` of the capture
regexes. -/
def captureTailOk (tails : List (List Char)) (cs : List Char) : Bool :=
  tails.any (fun t => wsThenLit t cs) || cs.isEmpty

/-- The lazy capture `(cls+?)` followed by the closing alternation: the
shortest non-empty capture whose tail matches is produced. -/
def lazyCapture (cls : Char → Bool) (tails : List (List Char)) :
    List Char → Option (List Char)
  | [] => none
  | c :: cs =>
    if cls c then
      if captureTailOk tails cs then some [c]
      else (lazyCapture cls tails cs).map (fun r => c :: r)
    else none

/-- The optional greedy group `(?:word\s+)?` followed by the continuation
`k`: the variant that consumes `word\s+` is tried first. -/
def optWordGroup (w : Option (List Char)) (k : List Char → Option (List Char))
    (cs : List Char) : Option (List Char) :=
  match w with
  | none => k cs
  | some lit =>
    match matchLitCI lit cs with
    | some rest =>
      match wsGreedy k rest with
      | some r => some r
      | none => k cs
    | none => k cs

/-- Match `(?:a₁|a₂|…)\s+(?:opt\s+)?(cls+?)(?:\s+t₁|…|$)` anchored at the
current position, returning the capture.  Alternatives are tried in
order, as a JS engine does. -/
def captureAt (alts : List (List Char)) (opt : Option (List Char))
    (cls : Char → Bool) (tails : List (List Char)) (cs : List Char) :
    Option (List Char) :=
  alts.findSome? (fun a =>
    (matchLitCI a cs).bind (wsGreedy (optWordGroup opt (lazyCapture cls tails))))

/-- Leftmost-match search for `captureAt` (the semantics of
`String.prototype.match` without the `g` flag). -/
def captureSearch (alts : List (List Char)) (opt : Option (List Char))
    (cls : Char → Bool) (tails : List (List Char)) : List Char → Option (List Char)
  | [] => none
  | c :: cs =>
    match captureAt alts opt cls tails (c :: cs) with
    | some r => some r
    | none => captureSearch alts opt cls tails cs

/-- `/(?:gif|giphy)\s+(?:of\s+)?(.+?)(?:\s+with|\s+from|$)/i` from
`AIOrchestrator.parseExecutionIntent`; returns capture group 1. -/
def gifQueryCapture (s : String) : Option String :=
  (captureSearch [("gif".data), ("giphy".data)] (some ("of".data)) jsDot
    [("with".data), ("from".data)] s.data).map String.mk

/-- `/(?:gif|image|picture|photo)\s+(?:of\s+)?(.+?)(?:\s+with|\s+from|$)/i`
from `AIOrchestrator.extractParameters` (media branch). -/
def mediaQueryCapture (s : String) : Option String :=
  (captureSearch [("gif".data), ("image".data), ("picture".data), ("photo".data)]
    (some ("of".data)) jsDot [("with".data), ("from".data)] s.data).map String.mk

/-- `/(?:search|find|get)\s+(.+?)(?:\s+with|\s+from|$)/i` from
`AIOrchestrator.extractParameters` (query branch). -/
def searchVerbCapture (s : String) : Option String :=
  (captureSearch [("search".data), ("find".data), ("get".data)] none jsDot
    [("with".data), ("from".data)] s.data).map String.mk

/-- A character of the regex class `[A-Za-z\s,]`. -/
def locClass (c : Char) : Bool :=
  ('a' ≤ c && c ≤ 'z') || ('A' ≤ c && c ≤ 'Z') || jsIsSpace c || c = ','

/-- `/(?:in|at|to|from)\s+([A-Za-z\s,]+?)(?:\s+with|\s+from|\s+to|$)/i`
from `AIOrchestrator.extractParameters` (location branch). -/
def locationCapture (s : String) : Option String :=
  (captureSearch [("in".data), ("at".data), ("to".data), ("from".data)] none
    locClass [("with".data), ("from".data), ("to".data)] s.data).map String.mk

/-- `/"([^"]+)"/` anchored at the current position. -/
def quotedAt : List Char → Option (List Char)
  | [] => none
  | c :: cs =>
    if c = '"' then
      let run := cs.takeWhile (fun d => d ≠ '"')
      if run.isEmpty then none
      else if (cs.drop run.length).head? = some '"' then some run else none
    else none

/-- Leftmost match of `/"([^"]+)"/`, returning capture group 1. -/
def quotedCapture (s : String) : Option String :=
  (quotedSearchAux s.data).map String.mk
where
  quotedSearchAux : List Char → Option (List Char)
    | [] => none
    | c :: cs =>
      match quotedAt (c :: cs) with
      | some r => some r
      | none => quotedSearchAux cs

/-- The word-character run `([a-zA-Z0-9_-]+)` as a capture (greedy, at
least one character). -/
def wordRunCapture (cs : List Char) : Option (List Char) :=
  let run := cs.takeWhile isWordChar
  if run.isEmpty then none else some run

/-- `/kw\s+([a-zA-Z0-9_-]+)/i` anchored at the current position. -/
def kwNameAt (kw : List Char) (cs : List Char) : Option (List Char) :=
  (matchLitCI kw cs).bind (wsGreedy wordRunCapture)

/-- Leftmost match of `/kw\s+([a-zA-Z0-9_-]+)/i`, returning capture
group 1 (`kw` is `install` or `uninstall` in the source). -/
def kwNameSearch (kw : List Char) : List Char → Option (List Char)
  | [] => none
  | c :: cs =>
    match kwNameAt kw (c :: cs) with
    | some r => some r
    | none => kwNameSearch kw cs

/-- `kw\s+` anchored at the current position: the keyword plus the full
greedy whitespace run (nothing follows in the pattern); returns the
rest. -/
def kwWsAt (kw : List Char) (cs : List Char) : Option (List Char) :=
  match matchLitCI kw cs with
  | none => none
  | some rest =>
    match rest with
    | [] => none
    | c :: rest2 => if jsIsSpace c then some (rest2.dropWhile jsIsSpace) else none

/-- `String.prototype.replace` with regex `/kw\s+/i` and the empty
replacement: drop the first match, keep everything else. -/
def replaceKwWs (kw : List Char) : List Char → List Char
  | [] => []
  | c :: cs =>
    match kwWsAt kw (c :: cs) with
    | some rest => rest
    | none => c :: replaceKwWs kw cs

/-- `String.prototype.replace` with a plain-string pattern: replace the
first occurrence of `pat` with nothing. -/
def replaceFirstLit (pat : List Char) : List Char → List Char
  | [] => []
  | c :: cs =>
    if leadsWith pat (c :: cs) then (c :: cs).drop pat.length
    else c :: replaceFirstLit pat cs

/-! ## DiscoveryScanner (`src/core/bluesky-scanner.ts`) -/

/-- The namespace-qualified identifier that
`BlueskyScanner.extractToolMentions` builds for a tool name found in an
`install <name>` phrase (`bluesky-scanner.ts:155`). -/
def mentionIdOfInstall (toolName : String) : String := "social.catalog." ++ toolName

/-- One match attempt of `/social\.catalog\.[a-zA-Z0-9_-]+/` (case
sensitive): the matched text and the rest of the input. -/
def scMentionAt (cs : List Char) : Option (String × List Char) :=
  match matchLitCS ("social.catalog.".data) cs with
  | none => none
  | some rest =>
    let run := rest.takeWhile isWordChar
    if run.isEmpty then none
    else some ("social.catalog." ++ String.mk run, rest.drop run.length)

/-- All matches of `/social\.catalog\.[a-zA-Z0-9_-]+/g`: scan left to
right, continuing after each match.  Fuel-indexed; any fuel of at least
`length + 1` gives the full scan. -/
def scMentionScan : Nat → List Char → List String
  | 0, _ => []
  | _ + 1, [] => []
  | fuel + 1, c :: cs =>
    match scMentionAt (c :: cs) with
    | some (m, rest) => m :: scMentionScan fuel rest
    | none => scMentionScan fuel cs

/-- One match attempt of `/install\s+([a-zA-Z0-9_-]+)/i` returning the
full matched slice (as `String.prototype.match` with `g` does) and the
rest of the input. -/
def installFullAt (cs : List Char) : Option (List Char × List Char) :=
  match matchLitCI ("install".data) cs with
  | none => none
  | some rest =>
    let spaces := rest.takeWhile jsIsSpace
    if spaces.isEmpty then none
    else
      let after := rest.drop spaces.length
      let run := after.takeWhile isWordChar
      if run.isEmpty then none
      else some (cs.take (7 + spaces.length + run.length), after.drop run.length)

/-- All full matches of `/install\s+([a-zA-Z0-9_-]+)/gi` (fuel-indexed
like `scMentionScan`). -/
def installFullScan : Nat → List Char → List (List Char)
  | 0, _ => []
  | _ + 1, [] => []
  | fuel + 1, c :: cs =>
    match installFullAt (c :: cs) with
    | some (m, rest) => m :: installFullScan fuel rest
    | none => installFullScan fuel cs

/-- `[...new Set(xs)]` with the already-seen elements accumulated:
deduplicate, keeping first occurrences in order. -/
def jsSetDedupAux (seen : List String) : List String → List String
  | [] => []
  | x :: xs =>
    if seen.contains x then jsSetDedupAux seen xs
    else x :: jsSetDedupAux (x :: seen) xs

/-- `[...new Set(xs)]`: deduplicate, keeping first occurrences in
order. -/
def jsSetDedup (l : List String) : List String := jsSetDedupAux [] l

/-- `BlueskyScanner.extractToolMentions`: namespace-qualified mentions
plus `install <name>` phrases normalised to the `social.catalog`
namespace, deduplicated per post. -/
def extractToolMentions (text : String) : List String :=
  let mentions1 := scMentionScan (text.data.length + 1) text.data
  let installMatches := installFullScan (text.data.length + 1) text.data
  let mentions2 := installMatches.map
    (fun m => mentionIdOfInstall (String.mk (replaceKwWs ("install".data) m)))
  jsSetDedup (mentions1 ++ mentions2)

/-- The state owned by `BlueskyScanner`: the single-flight flag and the
registry it writes into. -/
structure ScannerState where
  scanning : Bool
  cache : CacheState
deriving DecidableEq, Repr

/-- The synchronous head of `BlueskyScanner.startBackgroundScan`: the
single-flight guard.  When a scan is already in progress the call throws
`"Scan already in progress"` and the state — in particular the registry —
is untouched; otherwise the `scanning` flag is raised. -/
def startBackgroundScanBegin (st : ScannerState) :
    Except String Unit × ScannerState :=
  if st.scanning then (Except.error "Scan already in progress", st)
  else (Except.ok (), { st with scanning := true })

/-- The remainder of `BlueskyScanner.startBackgroundScan`: on the normal
path every newly verified tool is merged into the registry via `addTool`
and the scan time is stamped; on the exceptional path the error is only
recorded in the returned result.  Either way the `finally` block lowers
the `scanning` flag. -/
def startBackgroundScanFinish (st : ScannerState) (newTools : List CachedTool)
    (now : Nat) (crashed : Bool) : ScannerState :=
  if crashed then { st with scanning := false }
  else
    { scanning := false
      cache := updateLastScan (newTools.foldl (fun c t => addTool c t now) st.cache) now }

/-! ## IntentResolver (`src/core/ai-orchestrator.ts`, deterministic
fallback path) -/

/-- The tagged intent kinds of the `Intent` interface. -/
inductive IntentType where
  | install
  | uninstall
  | execute
  | search
  | list
  | help
  | unknown
deriving DecidableEq, Repr

/-- The `Intent` record of `ai-orchestrator.ts`.  The loosely typed
`parameters` bag is modelled as an insertion-ordered string-keyed
record. -/
structure Intent where
  type : IntentType
  confidence : Nat
  toolId : Option String := none
  parameters : List (String × String)
  originalText : String
deriving DecidableEq, Repr

/-- An entry of the `media` array of an `ExecutionResult`. -/
structure MediaItem where
  type : String
  url : String
  title : String
  description : String
deriving DecidableEq, Repr

/-- The `ExecutionResult` record of `ai-orchestrator.ts`. -/
structure ExecutionResult where
  success : Bool
  content : String
  media : List MediaItem := []
  error : Option String := none
deriving DecidableEq, Repr

/-- Assignment to a field of a JS object model: an existing key keeps its
position and gets the new value, a new key is appended. -/
def recSet : List (String × String) → String → String → List (String × String)
  | [], k, v => [(k, v)]
  | (k0, v0) :: rest, k, v =>
    if k0 = k then (k0, v) :: rest else (k0, v0) :: recSet rest k v

/-- Field read on a JS object model. -/
def recGet (ps : List (String × String)) (k : String) : Option String :=
  (ps.find? (fun p => p.1 == k)).map (fun p => p.2)

/-- `AIOrchestrator.isInstallIntent` (applied to the lowercased, trimmed
message). -/
def isInstallIntent (m : String) : Bool :=
  strStartsWith m "install " || strIncludes m "add " || strIncludes m "get "

/-- `AIOrchestrator.isUninstallIntent`. -/
def isUninstallIntent (m : String) : Bool :=
  strStartsWith m "uninstall " || strIncludes m "remove " || strIncludes m "delete "

/-- `AIOrchestrator.isListIntent` — `&&` binds tighter than `||` in
JavaScript, so this is `list ∨ show ∨ (what ∧ installed)`. -/
def isListIntent (m : String) : Bool :=
  strIncludes m "list" || strIncludes m "show" ||
  (strIncludes m "what" && strIncludes m "installed")

/-- `AIOrchestrator.isSearchIntent`. -/
def isSearchIntent (m : String) : Bool :=
  strIncludes m "search" || strIncludes m "find" || strIncludes m "discover"

/-- `AIOrchestrator.isHelpIntent`. -/
def isHelpIntent (m : String) : Bool :=
  strIncludes m "help" || strIncludes m "?" || strIncludes m "commands"

/-- The identifier the fallback install/uninstall parsers resolve a tool
name to (`ai-orchestrator.ts:222` and `:247`). -/
def resolvedToolId (toolName : String) : String := "comlink." ++ toolName

/-- `AIOrchestrator.parseInstallIntent`. -/
def parseInstallIntent (message : String) : Intent :=
  let toolName :=
    match kwNameSearch ("install".data) message.data with
    | some cap => String.mk cap
    | none => jsTrim (String.mk (replaceKwWs ("install".data) message.data))
  { type := .install
    confidence := 90
    toolId := some (resolvedToolId toolName)
    parameters := [("toolName", toolName)]
    originalText := message }

/-- `AIOrchestrator.parseUninstallIntent`. -/
def parseUninstallIntent (message : String) : Intent :=
  let toolName :=
    match kwNameSearch ("uninstall".data) message.data with
    | some cap => String.mk cap
    | none => jsTrim (String.mk (replaceKwWs ("uninstall".data) message.data))
  { type := .uninstall
    confidence := 90
    toolId := some (resolvedToolId toolName)
    parameters := [("toolName", toolName)]
    originalText := message }

/-- `AIOrchestrator.parseListIntent`. -/
def parseListIntent (message : String) : Intent :=
  { type := .list, confidence := 80, toolId := none, parameters := []
    originalText := message }

/-- The greedy capture `(.+)` at the current position (the final element
of the `parseSearchIntent` regex). -/
def greedyRestCapture (cs : List Char) : Option (List Char) :=
  let run := cs.takeWhile jsDot
  if run.isEmpty then none else some run

/-- `/(?:search|find|discover)\s+(.+)/i` anchored at the current
position. -/
def searchQueryAt (cs : List Char) : Option (List Char) :=
  [("search".data), ("find".data), ("discover".data)].findSome?
    (fun a => (matchLitCI a cs).bind (wsGreedy greedyRestCapture))

/-- Leftmost match of `/(?:search|find|discover)\s+(.+)/i`, returning
capture group 1. -/
def searchQueryScan : List Char → Option (List Char)
  | [] => none
  | c :: cs =>
    match searchQueryAt (c :: cs) with
    | some r => some r
    | none => searchQueryScan cs

/-- `AIOrchestrator.parseSearchIntent`. -/
def parseSearchIntent (message : String) : Intent :=
  let query := match searchQueryScan message.data with
    | some cap => jsTrim (String.mk cap)
    | none => ""
  { type := .search, confidence := 80, toolId := none
    parameters := [("query", query)], originalText := message }

/-- `AIOrchestrator.parseHelpIntent`. -/
def parseHelpIntent (message : String) : Intent :=
  { type := .help, confidence := 90, toolId := none, parameters := []
    originalText := message }

/-- `AIOrchestrator.calculateToolMatchConfidence`, following the source
control flow: a truthiness-guarded name check (+0.4), a fold over the
capabilities (+0.2 per hit), a fold over the tags (+0.1 per hit), and a
fold over the description words (+0.05 per word longer than 3 characters
found in the message), clamped by `Math.min(·, 1.0)` (`min · 100` in
hundredths).  The JS truthiness guards (`tool.name &&`, `capability &&`,
`tag &&`, `tool.description &&`) are the `!= ""` tests. -/
def calculateToolMatchConfidence (message : String) (tool : CachedTool) : Nat :=
  let lowerMessage := jsToLower message
  let c1 : Nat :=
    if tool.name != "" && strIncludes lowerMessage (jsToLower tool.name)
    then 40 else 0
  let c2 := tool.capabilities.foldl
    (fun acc capability =>
      if capability != "" && strIncludes lowerMessage (jsToLower capability)
      then acc + 20 else acc) c1
  let c3 := tool.tags.foldl
    (fun acc tag =>
      if tag != "" && strIncludes lowerMessage (jsToLower tag)
      then acc + 10 else acc) c2
  let c4 :=
    if tool.description != "" then
      (jsSplitSpace (jsToLower tool.description)).foldl
        (fun acc word =>
          if decide (word.length > 3) && strIncludes lowerMessage word
          then acc + 5 else acc) c3
    else c3
  min c4 100

/-- One iteration of the best-match loop of `parseExecutionIntent`: an
installed id that does not resolve in the cache is skipped (`continue`),
a resolved tool is kept exactly when its confidence strictly exceeds the
best so far. -/
def bestStep (cache : CacheState) (message : String)
    (acc : Option CachedTool × Nat) (toolId : String) : Option CachedTool × Nat :=
  match getTool cache toolId with
  | none => acc
  | some tool =>
    let confidence := calculateToolMatchConfidence message tool
    if confidence > acc.2 then (some tool, confidence) else acc

/-- The best-match accumulator loop of `parseExecutionIntent`, starting
from no match and confidence 0. -/
def bestToolMatch (installed : List String) (cache : CacheState)
    (message : String) : Option CachedTool × Nat :=
  installed.foldl (bestStep cache message) (none, 0)

/-- `AIOrchestrator.extractParameters`: best-effort parameter extraction
keyed on the selected tool's capabilities and tags; the media branch
overwrites a `query` set by the search branch. -/
def extractParameters (message : String) (tool : CachedTool) :
    List (String × String) :=
  let p0 : List (String × String) := []
  let p1 :=
    if tool.capabilities.contains "search" then
      match quotedCapture message with
      | some q => recSet p0 "query" (jsTrim q)
      | none =>
        match searchVerbCapture message with
        | some q => recSet p0 "query" (jsTrim q)
        | none => p0
    else p0
  let p2 :=
    if tool.capabilities.contains "location" ||
        (tool.tags.contains "weather" || tool.tags.contains "maps") then
      match locationCapture message with
      | some loc => recSet p1 "location" (jsTrim loc)
      | none => p1
    else p1
  let p3 :=
    if tool.capabilities.contains "media" || tool.tags.contains "gif" then
      match mediaQueryCapture message with
      | some q => recSet p2 "query" (jsTrim q)
      | none => p2
    else p2
  p3

/-- The built-in `gif`/`giphy` fallback tail of `parseExecutionIntent`,
reached when no installed tool is kept with confidence above 0.3. -/
def execFallbackTail (message : String) : Intent :=
  let lowerMessage := jsToLower message
  if strIncludes lowerMessage "gif" || strIncludes lowerMessage "giphy" then
    let query := match gifQueryCapture message with
      | some cap => jsTrim cap
      | none => "something fun"
    { type := .execute, confidence := 70, toolId := some "comlink.giphy"
      parameters := [("query", query)], originalText := message }
  else
    { type := .unknown, confidence := 0, toolId := none
      parameters := [], originalText := message }

/-- `AIOrchestrator.parseExecutionIntent`. -/
def parseExecutionIntent (installed : List String) (cache : CacheState)
    (message : String) : Intent :=
  let best := bestToolMatch installed cache message
  match best.1 with
  | some bestMatch =>
    if best.2 > 30 then
      { type := .execute, confidence := best.2, toolId := some bestMatch.id
        parameters := extractParameters message bestMatch
        originalText := message }
    else execFallbackTail message
  | none => execFallbackTail message

/-- `AIOrchestrator.fallbackProcessMessage` on a string message.  The
guard `!message || typeof message !== 'string'` reduces, for strings, to
the emptiness test; the reported text is then `message || 'undefined'`,
i.e. the literal `"undefined"` for the falsy empty string. -/
def fallbackProcessMessage (installed : List String) (cache : CacheState)
    (message : String) : Intent :=
  if message = "" then
    { type := .unknown, confidence := 0, toolId := none, parameters := []
      originalText := "undefined" }
  else
    let lowerMessage := jsTrim (jsToLower message)
    if isInstallIntent lowerMessage then parseInstallIntent message
    else if isUninstallIntent lowerMessage then parseUninstallIntent message
    else if isListIntent lowerMessage then parseListIntent message
    else if isSearchIntent lowerMessage then parseSearchIntent message
    else if isHelpIntent lowerMessage then parseHelpIntent message
    else
      let executionIntent := parseExecutionIntent installed cache message
      if executionIntent.confidence > 30 then executionIntent
      else
        { type := .unknown, confidence := 0, toolId := none, parameters := []
          originalText := message }

/-- `JSON.stringify` of a parameter record (model rendering). -/
def jsonOfParams (ps : List (String × String)) : String :=
  "\x7b" ++
    String.intercalate ","
      (ps.map (fun p => "\"" ++ p.1 ++ "\":\"" ++ p.2 ++ "\"")) ++
  "\x7d"

/-- `AIOrchestrator.executeGiphySearch` (the built-in mock execution);
`query || 'something fun'` treats the empty string as falsy. -/
def executeGiphySearch (intent : Intent) : ExecutionResult :=
  let searchQuery := match recGet intent.parameters "query" with
    | some q => if q = "" then "something fun" else q
    | none => "something fun"
  { success := true
    content := "🛰️ Searching for GIFs: \"" ++ searchQuery ++ "\""
    media := [{ type := "gif"
                url := "https://media.giphy.com/media/example/giphy.gif"
                title := searchQuery ++ " GIF"
                description := "A fun " ++ searchQuery ++ " GIF from Giphy" }] }

/-- `AIOrchestrator.executeTool`: the built-in `comlink.giphy` executes
directly without an installation check; a missing or not-installed
identifier yields a failed result telling the user to install the tool
first; an installed identifier absent from the cache yields a failed
"not found in cache" result; otherwise a mock success is returned.  The
function is total: no branch throws. -/
def executeTool (installed : List String) (cache : CacheState)
    (intent : Intent) : ExecutionResult :=
  if intent.toolId = some "comlink.giphy" then executeGiphySearch intent
  else
    match intent.toolId with
    | none =>
      { success := false
        content := "🛰️ Tool not installed. Try \"install undefined\" first." }
    | some tid =>
      if !(installed.contains tid) then
        { success := false
          content := "🛰️ Tool not installed. Try \"install " ++
            String.mk (replaceFirstLit ("comlink.".data) tid.data) ++ "\" first." }
      else
        match getTool cache tid with
        | none =>
          { success := false
            content := "🛰️ Tool " ++ tid ++ " not found in cache." }
        | some tool =>
          { success := true
            content := "🛰️ Executed " ++ tool.name ++ " with parameters: " ++
              jsonOfParams intent.parameters }

/-! ## Specification-side definitions

These follow the wording of the specification (not the source) and are
compared against the embedded code. -/

/-- "`needle` appears in the message": the string is non-empty and occurs
case-insensitively in the message. -/
def specAppears (message needle : String) : Bool :=
  needle != "" && strIncludes (jsToLower message) (jsToLower needle)

/-- The tool-match confidence exactly as the specification phrases it:
0.4 if the tool's name appears in the message, plus 0.2 per capability
tag appearing, plus 0.1 per topical tag appearing, plus 0.05 per
description word longer than 3 characters appearing, clamped to 1
(in hundredths: 40, 20, 10, 5, clamped to 100). -/
def specConfidence (message : String) (tool : CachedTool) : Nat :=
  min
    (40 * (if specAppears message tool.name then 1 else 0)
      + 20 * tool.capabilities.countP (specAppears message)
      + 10 * tool.tags.countP (specAppears message)
      + 5 * (jsSplitSpace (jsToLower tool.description)).countP
          (fun w => decide (w.length > 3) && strIncludes (jsToLower message) w))
    100

/-- The ranking score exactly as the specification phrases it:
`3×(exact name match) + 2×(description contains query) + 1×(any tag
contains query)`. -/
def specSearchScore (lowerQuery : String) (t : CachedTool) : Nat :=
  3 * (if jsToLower t.name = lowerQuery then 1 else 0) +
  2 * (if strIncludes (jsToLower t.description) lowerQuery then 1 else 0) +
  1 * (if t.tags.any (fun tag => strIncludes (jsToLower tag) lowerQuery) then 1 else 0)

/-- The installed identifiers that resolve in the registry, as the
records the best-match loop actually scores. -/
def resolvedInstalled (installed : List String) (cache : CacheState) :
    List CachedTool :=
  installed.filterMap (getTool cache)

/-- The highest tool-match confidence over the resolvable installed
records (0 when none resolve). -/
def maxConfidence (installed : List String) (cache : CacheState)
    (message : String) : Nat :=
  (resolvedInstalled installed cache).foldl
    (fun m t => max m (calculateToolMatchConfidence message t)) 0

/-- The mocked `giphy` registry record used by the repository's own unit
tests (`tests/unit/tool-cache.test.ts`). -/
def giphyTool : CachedTool :=
  { id := "comlink.giphy", name := "giphy"
    description := "Search and share GIFs from Giphy"
    author := "did:plc:test-author", repo := "test-repo", lastSeen := 0
    capabilities := ["search", "media"], version := "1.0.0"
    tags := ["gif", "media", "fun"], homepage := some "https://giphy.com" }

/-- The empty registry. -/
def emptyCache : CacheState := { tools := [], lastScan := none }

/-! ## Helper lemmas -/

theorem find?_mapSet (l : List CachedTool) (u : CachedTool) :
    (mapSet l u).find? (fun x => x.id == u.id) = some u := by
  induction l with
  | nil => simp [mapSet]
  | cons x xs ih =>
    by_cases h : x.id = u.id
    · simp [mapSet, h]
    · simp [mapSet, h, ih]

theorem getTool_addTool (s : CacheState) (t : CachedTool) (n : Nat) :
    getTool (addTool s t n) t.id = some { t with lastSeen := n } := by
  simpa [getTool, addTool] using find?_mapSet s.tools { t with lastSeen := n }

/-! ## Claims -/

/-- **C9.** Upserting the same record twice changes only `lastSeen`: after
either upsert, `get` on the record's id returns the record with every
field as given and `lastSeen` equal to (hence at or after) the time of
that upsert; in particular the identifier and all other fields after the
second upsert equal those after the first. -/
theorem upsert_idempotent_modulo_lastSeen (s : CacheState) (t : CachedTool)
    (n1 n2 : Nat) :
    getTool (addTool s t n1) t.id = some { t with lastSeen := n1 } ∧
    getTool (addTool (addTool s t n1) t n2) t.id = some { t with lastSeen := n2 } ∧
    (∀ r, getTool (addTool s t n1) t.id = some r → r.id = t.id ∧ n1 ≤ r.lastSeen) ∧
    (∀ r, getTool (addTool (addTool s t n1) t n2) t.id = some r →
      r.id = t.id ∧ n2 ≤ r.lastSeen) := by
  refine ⟨getTool_addTool s t n1, getTool_addTool (addTool s t n1) t n2, ?_, ?_⟩
  · intro r hr
    rw [getTool_addTool s t n1] at hr
    cases hr
    exact ⟨rfl, le_refl n1⟩
  · intro r hr
    rw [getTool_addTool (addTool s t n1) t n2] at hr
    cases hr
    exact ⟨rfl, le_refl n2⟩

/-- Witness for **C9**'s inner hypotheses at a concrete input. -/
theorem upsert_idempotent_modulo_lastSeen_witness :
    getTool (addTool (addTool emptyCache giphyTool 5) giphyTool 7) "comlink.giphy" =
      some { giphyTool with lastSeen := 7 } ∧
    { giphyTool with lastSeen := 7 }.id = "comlink.giphy" ∧
    7 ≤ ({ giphyTool with lastSeen := 7 } : CachedTool).lastSeen := by
  have h := upsert_idempotent_modulo_lastSeen emptyCache giphyTool 5 7
  exact ⟨h.2.1, (h.2.2.2 _ h.2.1).1, (h.2.2.2 _ h.2.1).2⟩

/-- **C4.** Single-flight scanning: while a scan is in progress a second
`startBackgroundScan` call throws `"Scan already in progress"` without
touching the scanner state (in particular the registry); when the running
scan completes — normally or exceptionally — the flag is lowered and a
subsequent call passes the guard. -/
theorem scan_single_flight (st : ScannerState) (newTools : List CachedTool)
    (now : Nat) (crashed : Bool) (h : st.scanning = true) :
    startBackgroundScanBegin st = (Except.error "Scan already in progress", st) ∧
    (startBackgroundScanFinish st newTools now crashed).scanning = false ∧
    (startBackgroundScanBegin (startBackgroundScanFinish st newTools now crashed)).1 =
      Except.ok () := by
  refine ⟨by simp [startBackgroundScanBegin, h], ?_, ?_⟩ <;>
    cases crashed <;> simp [startBackgroundScanFinish, startBackgroundScanBegin]

/-- Witness for **C4** at a concrete scanning state. -/
theorem scan_single_flight_witness :
    startBackgroundScanBegin ⟨true, emptyCache⟩ =
      (Except.error "Scan already in progress", ⟨true, emptyCache⟩) ∧
    (startBackgroundScanFinish ⟨true, emptyCache⟩ [giphyTool] 3 false).scanning = false ∧
    (startBackgroundScanBegin
      (startBackgroundScanFinish ⟨true, emptyCache⟩ [giphyTool] 3 false)).1 =
      Except.ok () :=
  scan_single_flight ⟨true, emptyCache⟩ [giphyTool] 3 false rfl

/-- **C7.** Executing an `execute` intent whose resolved identifier is
absent from the installed set and is not the built-in `comlink.giphy`
yields `success = false` with content telling the user to install the
tool first (no exception is thrown: the embedding is a total function);
the built-in `comlink.giphy` executes successfully with no installation
check. -/
theorem execute_not_installed_fails (intent : Intent) (installed : List String)
    (cache : CacheState) (tid : String)
    (hid : intent.toolId = some tid)
    (hni : tid ∉ installed)
    (hng : tid ≠ "comlink.giphy") :
    (executeTool installed cache intent).success = false ∧
    (executeTool installed cache intent).content =
      "🛰️ Tool not installed. Try \"install " ++
        String.mk (replaceFirstLit ("comlink.".data) tid.data) ++ "\" first." ∧
    (∀ intent2 installed2 cache2, intent2.toolId = some "comlink.giphy" →
      (executeTool installed2 cache2 intent2).success = true) := by
  refine ⟨?_, ?_, ?_⟩
  · simp [executeTool, hid, hni, hng]
  · simp [executeTool, hid, hni, hng]
  · intro intent2 installed2 cache2 h2
    simp [executeTool, h2, executeGiphySearch]

/-- Witness for **C7** at a concrete non-installed intent. -/
theorem execute_not_installed_fails_witness :
    (executeTool ["comlink.weather"] emptyCache
      { type := .execute, confidence := 70, toolId := some "comlink.maps"
        parameters := [], originalText := "directions" }).success = false ∧
    (executeTool ["comlink.weather"] emptyCache
      { type := .execute, confidence := 70, toolId := some "comlink.maps"
        parameters := [], originalText := "directions" }).content =
      "🛰️ Tool not installed. Try \"install " ++
        String.mk (replaceFirstLit ("comlink.".data) "comlink.maps".data) ++ "\" first." ∧
    (executeTool [] emptyCache
      { type := .execute, confidence := 70, toolId := some "comlink.giphy"
        parameters := [("query", "cats")], originalText := "a gif of cats" }).success =
      true := by
  have h := execute_not_installed_fails
    { type := .execute, confidence := 70, toolId := some "comlink.maps"
      parameters := [], originalText := "directions" }
    ["comlink.weather"] emptyCache "comlink.maps" rfl (by decide) (by decide)
  exact ⟨h.1, h.2.1, h.2.2 _ [] emptyCache rfl⟩

/-- **C1 (code bug).** `searchTools` evaluated at the inputs that the
specification and the repository's own unit tests cover: the empty-string
query matches every cached tool (the empty string is a substring of
everything), so with the tests' `giphy` record cached the result has
`total = 1` and a non-empty tool list instead of the required
`{tools: [], total: 0}`; an absent (`undefined`/`null`) query makes
`query.toLowerCase()` throw a `TypeError` instead of returning a result. -/
theorem search_empty_or_nonstring_query_bug :
    searchTools [giphyTool] (JsValue.strv "") 10 =
      Except.ok { tools := [giphyTool], total := 1, query := "" } ∧
    searchTools [giphyTool] JsValue.undef 10 =
      Except.error "TypeError: query.toLowerCase is not a function" ∧
    searchTools [giphyTool] JsValue.nullv 10 =
      Except.error "TypeError: query.toLowerCase is not a function" :=
  ⟨rfl, rfl, rfl⟩

/-- **C2 (counterexample).** Classifying `"show me a gif of cats"` through
the deterministic fallback with an empty installed set does *not* produce
the claimed execute/0.7 intent: the message contains `"show"`, so the
list rule (checked before the execution fallback) fires with confidence
0.8. -/
theorem show_gif_of_cats_is_list_intent :
    fallbackProcessMessage [] emptyCache "show me a gif of cats" =
      { type := .list, confidence := 80, toolId := none, parameters := []
        originalText := "show me a gif of cats" } ∧
    (fallbackProcessMessage [] emptyCache "show me a gif of cats").type ≠
      IntentType.execute :=
  ⟨rfl, by decide⟩

/-- **C2 (amended).** The media fallback of the deterministic path behaves
as claimed — execute intent, confidence 0.7, built-in `comlink.giphy`,
parameter `query = "cats"` — for a media message that does not contain a
list keyword, e.g. `"a gif of cats"`; the original message
`"show me a gif of cats"` instead triggers the list rule (confidence
0.8) because it contains `"show"`. -/
theorem media_fallback_classification (cache : CacheState) :
    fallbackProcessMessage [] cache "a gif of cats" =
      { type := .execute, confidence := 70, toolId := some "comlink.giphy"
        parameters := [("query", "cats")], originalText := "a gif of cats" } ∧
    fallbackProcessMessage [] cache "show me a gif of cats" =
      { type := .list, confidence := 80, toolId := none, parameters := []
        originalText := "show me a gif of cats" } :=
  ⟨rfl, rfl⟩

/-- **C6.** Classifying `"install giphy"` through the deterministic
fallback yields an install intent with confidence 0.9, resolved
identifier `comlink.giphy` (the namespace prefix plus the captured
name), and parameter `toolName = "giphy"`, whatever the installed set
and registry. -/
theorem install_giphy_classification (installed : List String) (cache : CacheState) :
    fallbackProcessMessage installed cache "install giphy" =
      { type := .install, confidence := 90
        toolId := some (resolvedToolId "giphy")
        parameters := [("toolName", "giphy")], originalText := "install giphy" } ∧
    resolvedToolId "giphy" = "comlink.giphy" :=
  ⟨rfl, rfl⟩

/-! ### C10: discovered mentions versus resolved identifiers -/

theorem scMentionAt_shape (cs : List Char) (m : String) (rest : List Char)
    (h : scMentionAt cs = some (m, rest)) : ∃ s, m = "social.catalog." ++ s := by
  rw [scMentionAt] at h
  rcases hr : matchLitCS ("social.catalog.".data) cs with _ | r
  · rw [hr] at h
    simp at h
  · rw [hr] at h
    by_cases he : (r.takeWhile isWordChar).isEmpty
    · simp [he] at h
    · simp only [he, Bool.false_eq_true, if_false, Option.some.injEq, Prod.mk.injEq] at h
      exact ⟨_, h.1.symm⟩

theorem mem_scMentionScan_shape :
    ∀ (fuel : Nat) (cs : List Char) (m : String),
      m ∈ scMentionScan fuel cs → ∃ s, m = "social.catalog." ++ s := by
  intro fuel
  induction fuel with
  | zero => intro cs m h; simp [scMentionScan] at h
  | succ f ih =>
    intro cs m h
    cases cs with
    | nil => simp [scMentionScan] at h
    | cons c t =>
      rcases hat : scMentionAt (c :: t) with _ | ⟨m0, rest⟩ <;>
        simp only [scMentionScan, hat] at h
      · exact ih t m h
      · rcases List.mem_cons.mp h with rfl | h2
        · exact scMentionAt_shape _ _ _ hat
        · exact ih rest m h2

theorem mem_of_mem_jsSetDedupAux :
    ∀ (l seen : List String) (x : String), x ∈ jsSetDedupAux seen l → x ∈ l := by
  intro l
  induction l with
  | nil => intro seen x hx; simp [jsSetDedupAux] at hx
  | cons y ys ih =>
    intro seen x hx
    simp only [jsSetDedupAux] at hx
    by_cases hs : seen.contains y
    · rw [if_pos hs] at hx
      exact List.mem_cons_of_mem _ (ih _ _ hx)
    · rw [if_neg hs] at hx
      rcases List.mem_cons.mp hx with rfl | h2
      · exact List.mem_cons_self _ _
      · exact List.mem_cons_of_mem _ (ih _ _ h2)

theorem sc_ne_comlink (a b : String) :
    ("social.catalog." ++ a) ≠ ("comlink." ++ b) := by
  intro h
  have h2 : (("social.catalog." ++ a).data.head?) = (("comlink." ++ b).data.head?) :=
    congrArg (fun s => s.data.head?) h
  have h3 : (some 's' : Option Char) = some 'c' := h2
  cases h3

theorem mem_extractToolMentions_shape (text : String) (m : String)
    (h : m ∈ extractToolMentions text) : ∃ s, m = "social.catalog." ++ s := by
  unfold extractToolMentions jsSetDedup at h
  have h2 := mem_of_mem_jsSetDedupAux _ _ _ h
  rcases List.mem_append.mp h2 with h3 | h3
  · exact mem_scMentionScan_shape _ _ _ h3
  · rcases List.mem_map.mp h3 with ⟨w, _, rfl⟩
    exact ⟨_, rfl⟩

/-- **C10.** The identifier that the discovery scanner's mention
extraction produces — always `social.catalog.<name>`, in particular for
an `install <name>` phrase — is never the identifier that the fallback
install/uninstall parsers resolve (`comlink.<name>`), so a record cached
from a discovered install mention is never the record an install or
uninstall intent resolves to. -/
theorem discovered_mention_never_resolves (text msg m tid : String)
    (hm : m ∈ extractToolMentions text)
    (ht : (parseInstallIntent msg).toolId = some tid ∨
          (parseUninstallIntent msg).toolId = some tid) :
    m ≠ tid := by
  rcases mem_extractToolMentions_shape text m hm with ⟨s, rfl⟩
  have h2 : ∃ n, tid = resolvedToolId n := by
    rcases ht with h | h
    · exact ⟨_, (Option.some.inj h).symm⟩
    · exact ⟨_, (Option.some.inj h).symm⟩
  rcases h2 with ⟨n, rfl⟩
  exact sc_ne_comlink s n

/-- Witness for **C10**: the mention extracted from the post
`"install giphy"` versus the identifier the install intent for the same
message resolves to. -/
theorem discovered_mention_never_resolves_witness :
    ("social.catalog.giphy" ∈ extractToolMentions "install giphy") ∧
    (parseInstallIntent "install giphy").toolId = some "comlink.giphy" ∧
    "social.catalog.giphy" ≠ "comlink.giphy" := by
  refine ⟨by decide, rfl, ?_⟩
  exact discovered_mention_never_resolves "install giphy" "install giphy" _ _
    (by decide) (Or.inl rfl)

/-! ### C8: export/import round trip -/

theorem mapSet_append_of_not_mem (l : List CachedTool) (t : CachedTool)
    (h : t.id ∉ l.map CachedTool.id) : mapSet l t = l ++ [t] := by
  induction l with
  | nil => rfl
  | cons x xs ih =>
    simp only [List.map_cons, List.mem_cons] at h
    push_neg at h
    simp only [mapSet]
    rw [if_neg (fun hx => h.1 hx.symm), ih h.2]
    simp

theorem foldl_mapSet_of_nodup :
    ∀ (l acc : List CachedTool),
      (l.map CachedTool.id).Nodup →
      (∀ u ∈ l, u.id ∉ acc.map CachedTool.id) →
      l.foldl mapSet acc = acc ++ l := by
  intro l
  induction l with
  | nil => intro acc _ _; simp
  | cons t ts ih =>
    intro acc hnd hacc
    simp only [List.foldl_cons]
    rw [mapSet_append_of_not_mem acc t (hacc t (List.mem_cons_self t ts))]
    simp only [List.map_cons, List.nodup_cons] at hnd
    have h2 : ∀ u ∈ ts, u.id ∉ (acc ++ [t]).map CachedTool.id := by
      intro u hu
      simp only [List.map_append, List.mem_append]
      rintro (h | h)
      · exact hacc u (List.mem_cons_of_mem _ hu) h
      · simp only [List.map_cons, List.map_nil, List.mem_singleton] at h
        exact hnd.1 (h ▸ List.mem_map_of_mem CachedTool.id hu)
    rw [ih (acc ++ [t]) hnd.2 h2]
    simp

/-- **C8.** For every reachable registry state (its map keys — the stored
ids — are distinct), importing its own export reproduces the state
exactly, discarding whatever the previous state held, so the search
result of any query (including degenerate ones) is identical before and
after the round trip. -/
theorem export_import_search_roundtrip (s prev : CacheState) (q : JsValue)
    (limit : Nat) (h : (s.tools.map CachedTool.id).Nodup) :
    cacheImport prev (cacheExport s) = s ∧
    searchTools (cacheImport prev (cacheExport s)).tools q limit =
      searchTools s.tools q limit := by
  have h1 : cacheImport prev (cacheExport s) = s := by
    obtain ⟨ts, ls⟩ := s
    unfold cacheImport cacheExport
    simp only at h ⊢
    rw [foldl_mapSet_of_nodup ts [] h (by simp)]
    simp
  exact ⟨h1, by rw [h1]⟩

/-- Witness for **C8** at a concrete one-record registry and the query
`"giphy"`. -/
theorem export_import_search_roundtrip_witness :
    ((([giphyTool] : List CachedTool).map CachedTool.id).Nodup) ∧
    cacheImport emptyCache (cacheExport { tools := [giphyTool], lastScan := some 4 }) =
      { tools := [giphyTool], lastScan := some 4 } ∧
    searchTools (cacheImport emptyCache
        (cacheExport { tools := [giphyTool], lastScan := some 4 })).tools
        (JsValue.strv "giphy") 10 =
      searchTools [giphyTool] (JsValue.strv "giphy") 10 := by
  have h := export_import_search_roundtrip
    { tools := [giphyTool], lastScan := some 4 } emptyCache (JsValue.strv "giphy") 10
    (by decide)
  exact ⟨by decide, h.1, h.2⟩

/-! ### C5: tool-match confidence and selection -/

theorem foldl_add_count {α : Type} (p : α → Bool) (d : Nat) :
    ∀ (l : List α) (a : Nat),
      l.foldl (fun acc x => if p x then acc + d else acc) a = a + d * l.countP p := by
  intro l
  induction l with
  | nil => intro a; simp [List.countP_nil]
  | cons x xs ih =>
    intro a
    cases h : p x <;>
      simp only [List.foldl_cons, List.countP_cons, h, if_true, if_false,
        Bool.false_eq_true, ih] <;> ring

theorem calc_eq_spec (message : String) (tool : CachedTool) :
    calculateToolMatchConfidence message tool = specConfidence message tool := by
  unfold calculateToolMatchConfidence specConfidence specAppears
  dsimp only
  simp only [foldl_add_count]
  by_cases hd : tool.description != ""
  · rw [if_pos hd]
    by_cases hn : tool.name != "" && strIncludes (jsToLower message) (jsToLower tool.name) <;>
      simp only [hn, if_true, if_false, Bool.false_eq_true]
  · rw [if_neg hd]
    have hd2 : tool.description = "" := by
      by_cases h : tool.description = ""
      · exact h
      · exact absurd (by simp [h]) hd
    rw [hd2]
    have hz : (jsSplitSpace (jsToLower "")).countP
        (fun w => decide (w.length > 3) && strIncludes (jsToLower message) w) = 0 := rfl
    rw [hz]
    by_cases hn : tool.name != "" && strIncludes (jsToLower message) (jsToLower tool.name) <;>
      simp only [hn, if_true, if_false, Bool.false_eq_true] <;> omega

theorem foldl_bestStep_snd (cache : CacheState) (message : String) :
    ∀ (installed : List String) (acc : Option CachedTool × Nat),
      (installed.foldl (bestStep cache message) acc).2 =
        (resolvedInstalled installed cache).foldl
          (fun m t => max m (calculateToolMatchConfidence message t)) acc.2 := by
  intro installed
  induction installed with
  | nil => intro acc; simp [resolvedInstalled]
  | cons tid l ih =>
    intro acc
    simp only [List.foldl_cons, resolvedInstalled, List.filterMap_cons]
    cases hg : getTool cache tid with
    | none =>
      simp only [bestStep, hg]
      exact ih acc
    | some tool =>
      simp only [bestStep, hg, List.foldl_cons]
      by_cases hc : calculateToolMatchConfidence message tool > acc.2
      · rw [if_pos hc]
        have := ih (some tool, calculateToolMatchConfidence message tool)
        rw [this]
        simp only [resolvedInstalled]
        rw [max_eq_right (le_of_lt hc)]
      · rw [if_neg hc]
        have := ih acc
        rw [this]
        simp only [resolvedInstalled]
        rw [max_eq_left (not_lt.mp hc)]

theorem foldl_bestStep_fst (cache : CacheState) (message : String) :
    ∀ (installed : List String) (acc : Option CachedTool × Nat),
      installed.foldl (bestStep cache message) acc = acc ∨
      ∃ t, t ∈ resolvedInstalled installed cache ∧
        installed.foldl (bestStep cache message) acc =
          (some t, calculateToolMatchConfidence message t) := by
  intro installed
  induction installed with
  | nil => intro acc; exact Or.inl rfl
  | cons tid l ih =>
    intro acc
    simp only [List.foldl_cons]
    cases hg : getTool cache tid with
    | none =>
      have hstep : bestStep cache message acc tid = acc := by simp [bestStep, hg]
      rw [hstep]
      rcases ih acc with h | ⟨t, ht, heq⟩
      · exact Or.inl h
      · refine Or.inr ⟨t, ?_, heq⟩
        simp only [resolvedInstalled, List.filterMap_cons, hg]
        exact ht
    | some tool =>
      by_cases hc : calculateToolMatchConfidence message tool > acc.2
      · have hstep : bestStep cache message acc tid =
            (some tool, calculateToolMatchConfidence message tool) := by
          simp [bestStep, hg, hc]
        rw [hstep]
        rcases ih (some tool, calculateToolMatchConfidence message tool) with h | ⟨t, ht, heq⟩
        · refine Or.inr ⟨tool, ?_, h⟩
          simp only [resolvedInstalled, List.filterMap_cons, hg]
          exact List.mem_cons_self _ _
        · refine Or.inr ⟨t, ?_, heq⟩
          simp only [resolvedInstalled, List.filterMap_cons, hg]
          exact List.mem_cons_of_mem _ ht
      · have hstep : bestStep cache message acc tid = acc := by
          simp [bestStep, hg, hc]
        rw [hstep]
        rcases ih acc with h | ⟨t, ht, heq⟩
        · exact Or.inl h
        · refine Or.inr ⟨t, ?_, heq⟩
          simp only [resolvedInstalled, List.filterMap_cons, hg]
          exact List.mem_cons_of_mem _ ht

/-- **C5.** The fallback tool-match confidence is exactly the
specification's sum — 0.4 for the name appearing in the message, 0.2 per
capability tag, 0.1 per topical tag, 0.05 per description word longer
than 3 characters, clamped to 1.0 (here in exact hundredths: 40, 20, 10,
5, clamp 100) — and `parseExecutionIntent` selects a resolvable installed
tool of maximal confidence, accepting it as an execute intent exactly
when that confidence strictly exceeds 0.3 (30), otherwise falling through
to the media fallback / unknown tail. -/
theorem tool_match_confidence_and_selection (message : String) (tool : CachedTool)
    (installed : List String) (cache : CacheState) :
    calculateToolMatchConfidence message tool = specConfidence message tool ∧
    (maxConfidence installed cache message > 30 →
      ∃ t, t ∈ resolvedInstalled installed cache ∧
        calculateToolMatchConfidence message t = maxConfidence installed cache message ∧
        parseExecutionIntent installed cache message =
          { type := .execute, confidence := maxConfidence installed cache message
            toolId := some t.id, parameters := extractParameters message t
            originalText := message }) ∧
    (¬ maxConfidence installed cache message > 30 →
      parseExecutionIntent installed cache message = execFallbackTail message) := by
  have hsnd : (bestToolMatch installed cache message).2 =
      maxConfidence installed cache message :=
    foldl_bestStep_snd cache message installed (none, 0)
  refine ⟨calc_eq_spec message tool, ?_, ?_⟩
  · intro hgt
    rcases foldl_bestStep_fst cache message installed (none, 0) with heq | ⟨t, ht, heq⟩
    · exfalso
      have h0 : (bestToolMatch installed cache message).2 = 0 := by
        unfold bestToolMatch
        rw [heq]
      rw [h0] at hsnd
      omega
    · have hbm : bestToolMatch installed cache message =
          (some t, calculateToolMatchConfidence message t) := heq
      have hconf : calculateToolMatchConfidence message t =
          maxConfidence installed cache message := by
        rw [← hsnd, hbm]
      refine ⟨t, ht, hconf, ?_⟩
      unfold parseExecutionIntent
      rw [hbm]
      simp only
      rw [if_pos (by rw [hconf]; exact hgt)]
      rw [hconf]
  · intro hng
    rcases foldl_bestStep_fst cache message installed (none, 0) with heq | ⟨t, ht, heq⟩
    · have hbm : bestToolMatch installed cache message = (none, 0) := heq
      unfold parseExecutionIntent
      rw [hbm]
    · have hbm : bestToolMatch installed cache message =
          (some t, calculateToolMatchConfidence message t) := heq
      have hconf : calculateToolMatchConfidence message t =
          maxConfidence installed cache message := by
        rw [← hsnd, hbm]
      unfold parseExecutionIntent
      rw [hbm]
      simp only
      rw [if_neg (by rw [hconf]; exact hng)]

/-- Witness for **C5**: with `giphy` installed and cached, the message
`"giphy cats"` scores 0.45 (name 0.4 plus the description word "giphy"
0.05), which exceeds 0.3, and an execute intent on `comlink.giphy` is
emitted. -/
theorem tool_match_confidence_and_selection_witness :
    calculateToolMatchConfidence "giphy cats" giphyTool =
      specConfidence "giphy cats" giphyTool ∧
    (∃ t, t ∈ resolvedInstalled ["comlink.giphy"]
        { tools := [giphyTool], lastScan := none } ∧
      calculateToolMatchConfidence "giphy cats" t =
        maxConfidence ["comlink.giphy"] { tools := [giphyTool], lastScan := none }
          "giphy cats" ∧
      parseExecutionIntent ["comlink.giphy"] { tools := [giphyTool], lastScan := none }
          "giphy cats" =
        { type := .execute
          confidence := maxConfidence ["comlink.giphy"]
            { tools := [giphyTool], lastScan := none } "giphy cats"
          toolId := some t.id, parameters := extractParameters "giphy cats" t
          originalText := "giphy cats" }) := by
  have h := tool_match_confidence_and_selection "giphy cats" giphyTool
    ["comlink.giphy"] { tools := [giphyTool], lastScan := none }
  exact ⟨h.1, h.2.1 (by decide)⟩

/-! ### C3: search ranking -/

theorem perm_orderedInsertDesc (key : CachedTool → Nat) (a : CachedTool) :
    ∀ l : List CachedTool, (orderedInsertDesc key a l).Perm (a :: l) := by
  intro l
  induction l with
  | nil => exact List.Perm.refl _
  | cons b t ih =>
    by_cases h : key b ≤ key a
    · simp only [orderedInsertDesc, if_pos h]
      exact List.Perm.refl _
    · simp only [orderedInsertDesc, if_neg h]
      exact (List.Perm.cons b ih).trans (List.Perm.swap a b t)

theorem perm_insertionSortDesc (key : CachedTool → Nat) :
    ∀ l : List CachedTool, (insertionSortDesc key l).Perm l := by
  intro l
  induction l with
  | nil => exact List.Perm.refl _
  | cons a t ih =>
    exact (perm_orderedInsertDesc key a (insertionSortDesc key t)).trans
      (List.Perm.cons a ih)

theorem pairwise_orderedInsertDesc (key : CachedTool → Nat) (a : CachedTool) :
    ∀ l : List CachedTool,
      List.Pairwise (fun x y => key y ≤ key x) l →
      List.Pairwise (fun x y => key y ≤ key x) (orderedInsertDesc key a l) := by
  intro l
  induction l with
  | nil => intro _; simp [orderedInsertDesc]
  | cons b t ih =>
    intro hp
    rcases List.pairwise_cons.mp hp with ⟨hb, ht⟩
    by_cases h : key b ≤ key a
    · simp only [orderedInsertDesc, if_pos h]
      refine List.pairwise_cons.mpr ⟨?_, hp⟩
      intro y hy
      rcases List.mem_cons.mp hy with rfl | hy2
      · exact h
      · exact le_trans (hb y hy2) h
    · simp only [orderedInsertDesc, if_neg h]
      refine List.pairwise_cons.mpr ⟨?_, ih ht⟩
      intro y hy
      have hy2 := List.mem_cons.mp ((perm_orderedInsertDesc key a t).mem_iff.mp hy)
      rcases hy2 with rfl | hy3
      · exact le_of_lt (not_le.mp h)
      · exact hb y hy3

theorem pairwise_insertionSortDesc (key : CachedTool → Nat) :
    ∀ l : List CachedTool,
      List.Pairwise (fun x y => key y ≤ key x) (insertionSortDesc key l) := by
  intro l
  induction l with
  | nil => simp [insertionSortDesc]
  | cons a t ih => exact pairwise_orderedInsertDesc key a _ ih

theorem filter_orderedInsertDesc (key : CachedTool → Nat) (n : Nat) (a : CachedTool) :
    ∀ l : List CachedTool,
      (orderedInsertDesc key a l).filter (fun x => decide (key x = n)) =
        if key a = n then a :: l.filter (fun x => decide (key x = n))
        else l.filter (fun x => decide (key x = n)) := by
  intro l
  induction l with
  | nil =>
    by_cases h : key a = n <;> simp [orderedInsertDesc, List.filter, h]
  | cons b t ih =>
    by_cases hba : key b ≤ key a
    · simp only [orderedInsertDesc, if_pos hba]
      by_cases han : key a = n <;> simp [List.filter_cons, han]
    · simp only [orderedInsertDesc, if_neg hba]
      rw [List.filter_cons, List.filter_cons, ih]
      by_cases han : key a = n
      · have hbn : ¬ (key b = n) := by
          have := not_le.mp hba
          omega
        simp [han, hbn]
      · simp [han]

theorem filter_insertionSortDesc (key : CachedTool → Nat) (n : Nat) :
    ∀ l : List CachedTool,
      (insertionSortDesc key l).filter (fun x => decide (key x = n)) =
        l.filter (fun x => decide (key x = n)) := by
  intro l
  induction l with
  | nil => rfl
  | cons a t ih =>
    simp only [insertionSortDesc]
    rw [filter_orderedInsertDesc, ih, List.filter_cons]
    by_cases han : key a = n <;> simp [han]

theorem pairwise_split (key : CachedTool → Nat) :
    ∀ (l : List CachedTool) (a b : CachedTool),
      List.Pairwise (fun x y => key y ≤ key x) l → a ∈ l → b ∈ l →
      key b < key a →
      ∃ p mid s, l = p ++ a :: (mid ++ b :: s) := by
  intro l
  induction l with
  | nil => intro a b _ ha _ _; cases ha
  | cons c t ih =>
    intro a b hp ha hb hlt
    rcases List.pairwise_cons.mp hp with ⟨hhead, htail⟩
    rcases List.mem_cons.mp ha with rfl | haT
    · have hbT : b ∈ t := by
        rcases List.mem_cons.mp hb with rfl | h
        · exact absurd hlt (lt_irrefl _)
        · exact h
      rcases List.append_of_mem hbT with ⟨mid, s, rfl⟩
      exact ⟨[], mid, s, rfl⟩
    · have hbT : b ∈ t := by
        rcases List.mem_cons.mp hb with rfl | h
        · exact absurd (hhead a haT) (not_le.mpr hlt)
        · exact h
      rcases ih a b htail haT hbT hlt with ⟨p, mid, s, rfl⟩
      exact ⟨c :: p, mid, s, rfl⟩

/-- **C3.** `searchTools` ranks by the score 3·(exact name match) +
2·(description contains query) + 1·(any tag contains query), descending,
with ties kept in encounter order: the output is the match list sorted so
that scores are non-increasing while each equal-score class keeps its
registry order, and any cached tool `A` whose name is exactly `"giphy"`
is placed strictly before any cached tool `B` that merely contains
`"giphy"` in its description. -/
theorem search_ranking (tools : List CachedTool) (A B : CachedTool) (lim : Nat)
    (hA : A ∈ tools) (hB : B ∈ tools)
    (hAname : jsToLower A.name = "giphy")
    (hBdesc : strIncludes (jsToLower B.description) "giphy" = true)
    (hBname : jsToLower B.name ≠ "giphy")
    (hBtag : B.tags.any (fun tag => strIncludes (jsToLower tag) "giphy") = false) :
    searchTools tools (JsValue.strv "giphy") lim =
      Except.ok { tools := (searchRanked tools "giphy").take lim
                  total := (searchMatches tools "giphy").length
                  query := "giphy" } ∧
    (∀ t, searchScore "giphy" t = specSearchScore "giphy" t) ∧
    List.Pairwise (fun x y => searchScore "giphy" y ≤ searchScore "giphy" x)
      (searchRanked tools "giphy") ∧
    (∀ n, (searchRanked tools "giphy").filter
        (fun x => decide (searchScore "giphy" x = n)) =
      (searchMatches tools "giphy").filter
        (fun x => decide (searchScore "giphy" x = n))) ∧
    (∃ p mid s, searchRanked tools "giphy" = p ++ A :: (mid ++ B :: s)) := by
  refine ⟨rfl, ?_, pairwise_insertionSortDesc _ _,
    fun n => filter_insertionSortDesc _ n _, ?_⟩
  · intro t
    unfold searchScore specSearchScore
    by_cases h1 : jsToLower t.name = "giphy" <;>
      by_cases h2 : strIncludes (jsToLower t.description) "giphy" = true <;>
        by_cases h3 : t.tags.any (fun tag => strIncludes (jsToLower tag) "giphy") = true <;>
          simp [h1, h2, h3]
  · have hAm : A ∈ searchMatches tools "giphy" := by
      refine List.mem_filter.mpr ⟨hA, ?_⟩
      unfold toolMatchesQuery
      rw [hAname]
      simp
      exact Or.inl (Or.inl (Or.inl rfl))
    have hBm : B ∈ searchMatches tools "giphy" := by
      refine List.mem_filter.mpr ⟨hB, ?_⟩
      unfold toolMatchesQuery
      rw [hBdesc]
      simp
    have hsA : 3 ≤ searchScore "giphy" A := by
      unfold searchScore
      rw [if_pos hAname]
      omega
    have hsB : searchScore "giphy" B = 2 := by
      unfold searchScore
      rw [if_neg hBname, if_pos hBdesc, if_neg (by simp [hBtag])]
    have hlt : searchScore "giphy" B < searchScore "giphy" A := by omega
    exact pairwise_split (searchScore "giphy") (searchRanked tools "giphy") A B
      (pairwise_insertionSortDesc _ _)
      ((perm_insertionSortDesc _ _).mem_iff.mpr hAm)
      ((perm_insertionSortDesc _ _).mem_iff.mpr hBm)
      hlt

/-- The auxiliary record for the **C3** witness: a tool that merely
mentions `giphy` in its description. -/
def wrapperTool : CachedTool :=
  { id := "comlink.wrapper", name := "other", description := "a giphy wrapper"
    author := "did:plc:other", repo := "r", lastSeen := 0
    capabilities := [], version := "1.0.0", tags := [] }

/-- Witness for **C3**: with the description-only match cached *before*
the exact-name match, the exact-name match is still ranked first. -/
theorem search_ranking_witness :
    searchTools [wrapperTool, giphyTool] (JsValue.strv "giphy") 10 =
      Except.ok { tools := (searchRanked [wrapperTool, giphyTool] "giphy").take 10
                  total := (searchMatches [wrapperTool, giphyTool] "giphy").length
                  query := "giphy" } ∧
    (∃ p mid s, searchRanked [wrapperTool, giphyTool] "giphy" =
      p ++ giphyTool :: (mid ++ wrapperTool :: s)) := by
  have h := search_ranking [wrapperTool, giphyTool] giphyTool wrapperTool 10
    (by decide) (by decide) (by decide) (by decide) (by decide) (by decide)
  exact ⟨h.1, h.2.2.2.2⟩

end Catalog
